import Mathlib

/-!
Verification of the ASW timetable parser core (`asw-parser`, single main Go file).

The definitions below are a shallow embedding of the parsing core:
character-level models of the string primitives the code uses
(trimming, replacement, the concrete regular expressions, `strconv.Atoi`,
`time.Parse` with the program's fixed layout string), the span-grid
resolver, the header date mapper, the cell text normalizer, the event
field extractor, the series-key derivation and event deduplication.
Machine integers are modelled as `Int`/`Nat` (no arithmetic in the core
ever overflows 64 bits; `strconv.Atoi`'s range failure is modelled
explicitly).  `time.Time` values constructed by the program always have
zero seconds and nanoseconds and a single fixed location, so they are
modelled as wall-clock records `GoDateTime`; the fixed-zone offset is not
modelled (it cancels in every comparison the program makes at whole-minute
granularity, DST transition instants excepted, which no statement here
touches).  Scanning loops carry an explicit fuel argument equal to the
input length so that every definition reduces inside the kernel.
-/

/-! ## Character classes and basic string primitives -/

/-- Decimal digit test, the `0-9` class of the Go regular expressions. -/
def isDig (c : Char) : Bool :=
  48 ≤ c.toNat && c.toNat ≤ 57

/-- Numeric value of a digit character. -/
def digVal (c : Char) : Nat :=
  c.toNat - 48

/-- Digit character of a value below ten. -/
def dig (n : Nat) : Char :=
  Char.ofNat (48 + n)

/-- White space as matched by the ASCII-only regexp class `s` of Go's
regexp package: tab, newline, form feed, carriage return and space. -/
def reSpace (c : Char) : Bool :=
  c = ' ' || c = '\t' || c = '\n' || c = '\u000c' || c = '\r'

/-- White space as trimmed by Go's `strings.TrimSpace` (Unicode
White_Space property). -/
def goSpace (c : Char) : Bool :=
  c.toNat = 9 || c.toNat = 10 || c.toNat = 11 || c.toNat = 12 || c.toNat = 13 ||
  c.toNat = 32 || c.toNat = 133 || c.toNat = 160 || c.toNat = 5760 ||
  (8192 ≤ c.toNat && c.toNat ≤ 8202) || c.toNat = 8232 || c.toNat = 8233 ||
  c.toNat = 8239 || c.toNat = 8287 || c.toNat = 12288

/-- Word characters for the regexp word boundary `b`: letters, digits
and underscore (ASCII, which is all the matched texts contain). -/
def isWordCh (c : Char) : Bool :=
  (65 ≤ c.toNat && c.toNat ≤ 90) || (97 ≤ c.toNat && c.toNat ≤ 122) ||
  isDig c || c = '_'

/-- Uppercase ASCII letter, the `A-Z` class of the series-key patterns. -/
def isUpper (c : Char) : Bool :=
  65 ≤ c.toNat && c.toNat ≤ 90

/-- ASCII lowering of one character, modelling `strings.ToLower` on the
ASCII texts compared by the summary heuristic. -/
def lowCh (c : Char) : Char :=
  if isUpper c then Char.ofNat (c.toNat + 32) else c

/-- Character-level `strings.TrimSpace`. -/
def trimL (l : List Char) : List Char :=
  ((l.dropWhile goSpace).reverse.dropWhile goSpace).reverse

/-- Embedding of `strings.TrimSpace`. -/
def trimS (s : String) : String :=
  String.mk (trimL s.data)

/-- Character-level case-insensitive comparison modelling
`strings.EqualFold` on ASCII texts (Unicode simple folding restricted to
the ASCII letters, which is all the compared marker contains). -/
def equalFoldL : List Char → List Char → Bool
  | [], [] => true
  | a :: as, b :: bs => lowCh a = lowCh b && equalFoldL as bs
  | _, _ => false

/-- Embedding of `strings.EqualFold` (ASCII fold). -/
def equalFold (a b : String) : Bool :=
  equalFoldL a.data b.data

/-- Embedding of `strings.ToLower` (ASCII fold). -/
def lowerS (s : String) : String :=
  String.mk (s.data.map lowCh)

/-- Substring test, modelling `strings.Contains`. -/
def containsSubL (hay need : List Char) : Bool :=
  match hay with
  | [] => need.isEmpty
  | _ :: t => need.isPrefixOf hay || containsSubL t need

/-- Embedding of `strings.Contains`. -/
def containsSub (hay need : String) : Bool :=
  containsSubL hay.data need.data

/-- Test for `strings.HasPrefix`. -/
def startsWithS (s pre : String) : Bool :=
  pre.data.isPrefixOf s.data

/-- Character-level join with a separator character, modelling
`strings.Join` of nonempty pieces. -/
def joinCh (sep : Char) : List String → List Char
  | [] => []
  | [l] => l.data
  | l :: r => l.data ++ sep :: joinCh sep r

/-- Embedding of `strings.Join(lines, " ")`. -/
def joinSp (ls : List String) : String :=
  String.mk (joinCh ' ' ls)

/-- Rejoining normalized lines with line breaks. -/
def joinNL (ls : List String) : String :=
  String.mk (joinCh '\n' ls)

/-! ## strconv.Atoi and getSpan -/

/-- Value of a digit list read in base ten. -/
def digitsVal (l : List Char) : Nat :=
  l.foldl (fun a c => 10 * a + digVal c) 0

/-- Embedding of `strconv.Atoi`: optional sign, one or more digits, no
other characters, with the 64-bit signed range failure made explicit. -/
def goAtoi (s : String) : Option Int :=
  let core : List Char → Option Int := fun l =>
    if l.isEmpty || !l.all isDig then none
    else some (Int.ofNat (digitsVal l))
  let v : Option Int :=
    match s.data with
    | '-' :: t => (core t).map (fun n => -n)
    | '+' :: t => core t
    | l => core l
  match v with
  | none => none
  | some n => if n < -(2 ^ 63) || 2 ^ 63 - 1 < n then none else some n

/-- Embedding of `getSpan`: the colspan or rowspan attribute value of a
cell, defaulting to 1 when the attribute is absent, non-numeric, zero or
negative.  The attribute is modelled as `Option String`. -/
def getSpan (attr : Option String) : Nat :=
  match attr with
  | none => 1
  | some v =>
    match goAtoi (trimS v) with
    | none => 1
    | some i => if i < 1 then 1 else i.toNat

/-! ## Cell Text Normalizer (`splitCellLines`) -/

/-- One replacement pass of `strings.ReplaceAll` for a nonempty pattern:
leftmost, non-overlapping.  The fuel argument (instantiated with the
input length) keeps the recursion structural. -/
def replaceAllL (pat rep : List Char) : Nat → List Char → List Char
  | _, [] => []
  | 0, l => l
  | fuel + 1, c :: t =>
    if pat.isPrefixOf (c :: t) then
      rep ++ replaceAllL pat rep fuel ((c :: t).drop pat.length)
    else
      c :: replaceAllL pat rep fuel t

/-- Embedding of `strings.ReplaceAll` (nonempty pattern, as used by the
normalizer). -/
def replaceAllS (pat rep s : String) : String :=
  String.mk (replaceAllL pat.data rep.data s.data.length s.data)

/-- Rest after the first closing angle bracket, if any. -/
def findGT : List Char → Option (List Char)
  | [] => none
  | '>' :: t => some t
  | _ :: t => findGT t

/-- Removal of every match of the tag pattern (an opening angle bracket,
a run without closing brackets, a closing bracket), as performed by
`tagRe.ReplaceAllString(s, "")`. -/
def removeTagsL : Nat → List Char → List Char
  | _, [] => []
  | 0, l => l
  | fuel + 1, c :: t =>
    if c = '<' then
      match findGT t with
      | some rest => removeTagsL fuel rest
      | none => c :: t
    else
      c :: removeTagsL fuel t

/-- Decoding of one character entity after an ampersand.  Models the
stdlib `html.UnescapeString` on the named entities the schedule pages
use plus decimal numeric references; every statement proved below only
evaluates it on ampersand-free text, where the stdlib function is the
identity. -/
def decodeEnt (l : List Char) : Option (Char × List Char) :=
  if ['a', 'm', 'p', ';'].isPrefixOf l then some ('&', l.drop 4)
  else if ['l', 't', ';'].isPrefixOf l then some ('<', l.drop 3)
  else if ['g', 't', ';'].isPrefixOf l then some ('>', l.drop 3)
  else if ['q', 'u', 'o', 't', ';'].isPrefixOf l then some ('"', l.drop 5)
  else if ['a', 'p', 'o', 's', ';'].isPrefixOf l then some ('\'', l.drop 5)
  else if ['n', 'b', 's', 'p', ';'].isPrefixOf l then some (' ', l.drop 5)
  else
    match l with
    | '#' :: t =>
      let ds := t.takeWhile isDig
      match t.dropWhile isDig with
      | ';' :: r =>
        if ds.isEmpty then none
        else if (digitsVal ds).isValidChar then some (Char.ofNat (digitsVal ds), r)
        else none
      | _ => none
    | _ => none

/-- Scanning pass of the entity decoder. -/
def unescapeL : Nat → List Char → List Char
  | _, [] => []
  | 0, l => l
  | fuel + 1, c :: t =>
    if c = '&' then
      match decodeEnt t with
      | some (d, rest) => d :: unescapeL fuel rest
      | none => c :: unescapeL fuel t
    else
      c :: unescapeL fuel t

/-- Embedding of `html.UnescapeString` (see `decodeEnt`). -/
def unescapeStr (s : String) : String :=
  String.mk (unescapeL s.data.length s.data)

/-- Split on newline characters, modelling `strings.Split(s, "\n")`
(the empty string yields one empty piece). -/
def splitNLL : List Char → List (List Char)
  | [] => [[]]
  | c :: t =>
    if c = '\n' then [] :: splitNLL t
    else
      match splitNLL t with
      | [] => [[c]]
      | h :: r => (c :: h) :: r

/-- One attempted match of the footnote pattern (optional ASCII white
space, an opening square bracket, digits, a closing square bracket,
optional ASCII white space) at the current position, returning the rest
after the match. -/
def tryFnAt (l : List Char) : Option (List Char) :=
  match l.dropWhile reSpace with
  | c :: t =>
    if c = '[' then
      if (t.takeWhile isDig).isEmpty then none
      else
        match t.dropWhile isDig with
        | ']' :: r => some (r.dropWhile reSpace)
        | _ => none
    else none
  | [] => none

/-- Removal of every footnote-pattern match, leftmost first and
non-overlapping, as performed by `footnoteRe.ReplaceAllString(l, "")`. -/
def removeFnL : Nat → List Char → List Char
  | _, [] => []
  | 0, l => l
  | fuel + 1, c :: t =>
    match tryFnAt (c :: t) with
    | some rest => removeFnL fuel rest
    | none => c :: removeFnL fuel t

/-- Per-line cleanup of the normalizer: trim, strip footnote markers,
drop the line when empty. -/
def cleanLine (l : String) : Option String :=
  let t := trimL l.data
  let t2 := removeFnL t.length t
  if t2.isEmpty then none else some (String.mk t2)

/-- Embedding of `splitCellLines`: break-tag variants become newlines,
remaining tags are stripped, entities decoded, and the text is split
into trimmed, de-footnoted, nonempty lines. -/
def splitCellLines (rawHTML : String) : List String :=
  let s1 := replaceAllS "<br/>" "\n" rawHTML
  let s2 := replaceAllS "<br />" "\n" s1
  let s3 := replaceAllS "<br>" "\n" s2
  let s4 := String.mk (removeTagsL s3.data.length s3.data)
  let s5 := unescapeStr s4
  (splitNLL s5.data).filterMap (fun l => cleanLine (String.mk l))

/-! ## Time range and clock parsing -/

/-- One attempted match of a clock token (one or two digits, a colon,
exactly two digits) at the current position, two-digit hour tried first
as the greedy quantifier does; returns the matched characters and the
rest.  At any position at most one of the two shapes can match, so this
deterministic order is exactly the backtracking search. -/
def matchClock1 (l : List Char) : Option (List Char × List Char) :=
  match l with
  | a :: b :: c :: d :: rest =>
    if isDig a && b = ':' && isDig c && isDig d then some ([a, b, c, d], rest)
    else none
  | _ => none

/-- Clock token matcher, see `matchClock1`. -/
def matchClockAt (l : List Char) : Option (List Char × List Char) :=
  match l with
  | a :: b :: c :: d :: e :: rest =>
    if isDig a && isDig b && c = ':' && isDig d && isDig e then
      some ([a, b, c, d, e], rest)
    else matchClock1 l
  | _ => matchClock1 l

/-- One attempted match of the time-range pattern (a clock token,
optional ASCII white space, a hyphen, optional ASCII white space, a
clock token) at the current position, returning the two captured
groups. -/
def tryRangeAt (l : List Char) : Option (String × String) :=
  match matchClockAt l with
  | none => none
  | some (c1, r1) =>
    match r1.dropWhile reSpace with
    | '-' :: r3 =>
      match matchClockAt (r3.dropWhile reSpace) with
      | none => none
      | some (c2, _) => some (String.mk c1, String.mk c2)
    | _ => none

/-- Leftmost search for the time-range pattern. -/
def rangeScan : Nat → List Char → Option (String × String)
  | 0, _ => none
  | fuel + 1, l =>
    match tryRangeAt l with
    | some r => some r
    | none =>
      match l with
      | [] => none
      | _ :: t => rangeScan fuel t

/-- Embedding of `extractTimeRange`: the first time-range match in the
text, as the pair of captured clock strings (`none` stands for the empty
pair the Go function returns when nothing matches). -/
def extractTimeRange (text : String) : Option (String × String) :=
  rangeScan (text.data.length + 1) text.data

/-- Range check shared by the two clock halves: a 24-hour clock value. -/
def clockCheck (h m : Nat) : Option (Nat × Nat) :=
  if h ≤ 23 && m ≤ 59 then some (h, m) else none

/-- Embedding of `parseClock`: trims, requires the anchored shape of one
or two digits, a colon and exactly two digits, converts both halves and
rejects hours above 23 and minutes above 59 (hours and minutes are
nonnegative by construction). -/
def parseClock (s : String) : Option (Nat × Nat) :=
  match trimL s.data with
  | [a, b, c, d, e] =>
    if isDig a && isDig b && c = ':' && isDig d && isDig e then
      clockCheck (10 * digVal a + digVal b) (10 * digVal d + digVal e)
    else none
  | [a, b, c, d] =>
    if isDig a && b = ':' && isDig c && isDig d then
      clockCheck (digVal a) (10 * digVal c + digVal d)
    else none
  | _ => none

/-! ## Data model: dates, wall-clock times, events -/

/-- Calendar date held by the column date map (a parsed `time.Time` at
midnight; only the calendar fields are ever read). -/
structure DateS where
  year : Int
  month : Nat
  day : Nat
  deriving DecidableEq, Repr

/-- Test for the zero `time.Time` value, `date.IsZero()`: January 1 of
year 1 (parsed dates carry no clock component). -/
def isZeroDate (d : DateS) : Bool :=
  d.year = 1 && d.month = 1 && d.day = 1

/-- Wall-clock timestamp built by `time.Date(year, month, day, hour,
minute, 0, 0, loc)` with the single fixed location.  Seconds and
nanoseconds are always zero in this program and are omitted. -/
structure GoDateTime where
  year : Int
  month : Nat
  day : Nat
  hour : Nat
  minute : Nat
  deriving DecidableEq, Repr

/-- Instant order of two timestamps of the fixed location, modelling
`time.Time` comparison: lexicographic on the wall-clock fields. -/
def beforeB (a b : GoDateTime) : Bool :=
  if a.year ≠ b.year then a.year < b.year
  else if a.month ≠ b.month then a.month < b.month
  else if a.day ≠ b.day then a.day < b.day
  else if a.hour ≠ b.hour then a.hour < b.hour
  else a.minute < b.minute

/-- Embedding of `ScheduleEvent` (`End` is a Lean keyword and is named
`stop` here). -/
structure ScheduleEvent where
  courseName : String
  summary : String
  location : String
  description : String
  start : GoDateTime
  stop : GoDateTime
  deriving DecidableEq, Repr

/-! ## Event Field Extractor (`parseEventCell`) -/

/-- First line carrying one of the two external-location markers, used
when the positional location line is empty. -/
def firstLoc : List String → String
  | [] => ""
  | l :: r =>
    if startsWithS l "NK:" || startsWithS l "EXT:" then l else firstLoc r

/-- Event assembly of `parseEventCell` once both clock halves parsed:
positional lines, summary and location heuristics, labeled description. -/
def buildEvent (lines : List String) (d : DateS) (courseName : String)
    (h1 m1 h2 m2 : Nat) : ScheduleEvent :=
  let typeLine := lines.getD 1 ""
  let moduleLine := lines.getD 2 ""
  let locationLine := lines.getD 3 ""
  let extra := lines.drop 4
  let start : GoDateTime := ⟨d.year, d.month, d.day, h1, m1⟩
  let stop : GoDateTime := ⟨d.year, d.month, d.day, h2, m2⟩
  let summary0 := if moduleLine ≠ "" then moduleLine
    else if typeLine ≠ "" then typeLine else "ASW event"
  let summary :=
    if typeLine ≠ "" && moduleLine ≠ "" &&
        !containsSub (lowerS moduleLine) (lowerS typeLine) then
      moduleLine ++ " (" ++ typeLine ++ ")"
    else summary0
  let location :=
    if locationLine ≠ "" then locationLine
    else firstLoc ([typeLine, moduleLine] ++ extra)
  let descParts :=
    ["Course: " ++ courseName] ++
    (if typeLine ≠ "" then ["Type: " ++ typeLine] else []) ++
    (if moduleLine ≠ "" then ["Module/Group: " ++ moduleLine] else []) ++
    (if location ≠ "" then ["Location: " ++ location] else []) ++
    extra.filter (fun l => l ≠ "")
  { courseName := courseName
    summary := summary
    location := location
    description := String.mk (joinCh '\n' descParts)
    start := start
    stop := stop }

/-- Embedding of `parseEventCell` from the normalized line list onward:
requires a time-range match in the space-joined lines, drops reserved
placeholder cells, requires both clock halves to parse, then assembles
the event. -/
def parseEventCellLines (lines : List String) (d : DateS)
    (courseName : String) : Option ScheduleEvent :=
  if lines.isEmpty then none
  else
    match extractTimeRange (joinSp lines) with
    | none => none
    | some (s1, s2) =>
      if 2 ≤ lines.length && equalFold (trimS (lines.getD 1 "")) "Reserviert" then
        none
      else
        match parseClock s1 with
        | none => none
        | some (h1, m1) =>
          match parseClock s2 with
          | none => none
          | some (h2, m2) => some (buildEvent lines d courseName h1 m1 h2 m2)

/-- Embedding of `parseEventCell`: normalization of the raw cell markup
followed by field extraction. -/
def parseEventCell (rawHTML : String) (d : DateS) (courseName : String) :
    Option ScheduleEvent :=
  parseEventCellLines (splitCellLines rawHTML) d courseName

/-! ## Header date parsing

The program parses header dates with `time.Parse(dateFormat, ...)` where
`dateFormat = "27.01.2006"`.  Go reads that layout string as: day
(`"2"`, one or two digits), the literal text `"7."`, zero-padded month
(`"01"`), the literal `"."`, four-digit year (`"2006"`).  The model
below follows that chunking of the layout exactly. -/

/-- Go `getnum` with `fixed = false`: one digit, or two when the second
character is also a digit. -/
def getnum2 : List Char → Option (Nat × List Char)
  | [] => none
  | [a] => if isDig a then some (digVal a, []) else none
  | a :: b :: t =>
    if isDig a then
      if isDig b then some (10 * digVal a + digVal b, t)
      else some (digVal a, b :: t)
    else none

/-- Go `getnum` with `fixed = true`: exactly two digits. -/
def getnumF2 : List Char → Option (Nat × List Char)
  | a :: b :: t =>
    if isDig a && isDig b then some (10 * digVal a + digVal b, t) else none
  | _ => none

/-- Four-digit year of the `2006` layout chunk. -/
def getnum4 : List Char → Option (Nat × List Char)
  | a :: b :: c :: d :: t =>
    if isDig a && isDig b && isDig c && isDig d then
      some (1000 * digVal a + 100 * digVal b + 10 * digVal c + digVal d, t)
    else none
  | _ => none

/-- Day count of a month, with Gregorian leap years, as validated by
`time.Parse`. -/
def daysIn (year month : Nat) : Nat :=
  if month = 2 then
    if year % 4 = 0 && (year % 100 ≠ 0 || year % 400 = 0) then 29 else 28
  else if month = 4 || month = 6 || month = 9 || month = 11 then 30
  else 31

/-- Embedding of `time.Parse("27.01.2006", s)`: day, the literal `"7."`,
two-digit month, `"."`, four-digit year, end of input, then range
validation.  Because the flexible day chunk consumes both leading digits
of a `DD.MM.YYYY` string, the following literal `"7."` never matches and
the parse fails on every header date the schedule produces. -/
def goParseDate (s : String) : Option DateS :=
  match getnum2 s.data with
  | none => none
  | some (day, r1) =>
    if ['7', '.'].isPrefixOf r1 then
      match getnumF2 (r1.drop 2) with
      | none => none
      | some (mon, r3) =>
        match r3 with
        | '.' :: r4 =>
          match getnum4 r4 with
          | none => none
          | some (yr, r5) =>
            if r5.isEmpty && 1 ≤ mon && mon ≤ 12 && 1 ≤ day && day ≤ daysIn yr mon then
              some ⟨(yr : Int), mon, day⟩
            else none
        | _ => none
    else none

/-! ## Header day-date token (`dayRe`) -/

/-- Position scanner with a word-boundary test before the match, shared
by the day-date and series-key patterns: tries the position matcher at
every position from left to right whose preceding character (if any) is
not a word character. -/
def scanB {α : Type} (f : List Char → Option α) : Nat → Option Char → List Char → Option α
  | 0, _, _ => none
  | fuel + 1, prev, l =>
    let bok := match prev with
      | none => true
      | some p => !isWordCh p
    match (if bok then f l else none) with
    | some r => some r
    | none =>
      match l with
      | [] => none
      | c :: t => scanB f fuel (some c) t

/-- Rest after one of the seven weekday abbreviations, alternatives in
pattern order (at most one can apply at a given position). -/
def weekdayTok (l : List Char) : Option (List Char) :=
  if ['M', 'o'].isPrefixOf l then some (l.drop 2)
  else if ['D', 'i'].isPrefixOf l then some (l.drop 2)
  else if ['M', 'i'].isPrefixOf l then some (l.drop 2)
  else if ['D', 'o'].isPrefixOf l then some (l.drop 2)
  else if ['F', 'r'].isPrefixOf l then some (l.drop 2)
  else if ['S', 'a'].isPrefixOf l then some (l.drop 2)
  else if ['S', 'o'].isPrefixOf l then some (l.drop 2)
  else none

/-- Word boundary after a match: end of input or a non-word character. -/
def bAfter : List Char → Bool
  | [] => true
  | c :: _ => !isWordCh c

/-- One attempted match of the header day-date pattern (weekday
abbreviation, comma, optional ASCII white space, `DD.MM.YYYY`, trailing
word boundary) at the current position, returning the captured date
characters. -/
def tryDayDateAt (l : List Char) : Option (List Char) :=
  match weekdayTok l with
  | none => none
  | some r1 =>
    match r1 with
    | ',' :: r2 =>
      match r2.dropWhile reSpace with
      | a :: b :: '.' :: c :: d :: '.' :: e :: f :: g :: h :: rest =>
        if isDig a && isDig b && isDig c && isDig d && isDig e && isDig f &&
            isDig g && isDig h && bAfter rest then
          some [a, b, '.', c, d, '.', e, f, g, h]
        else none
      | _ => none
    | _ => none

/-- Embedding of `dayRe.FindStringSubmatch(text)` reduced to its second
capture group: the first day-date token of the text. -/
def findDayDate (text : String) : Option String :=
  (scanB tryDayDateAt (text.data.length + 1) none text.data).map String.mk

/-- Date assigned by one header cell: trimmed text, day-date token, Go
date parse.  `none` both when no token is found and when the parse
fails, which the mapper treats identically. -/
def dateOfCellText (text : String) : Option DateS :=
  match findDayDate (trimS text) with
  | none => none
  | some ds => goParseDate ds

/-! ## Table cells and the Header Date Mapper -/

/-- Raw table cell: rendered text (used by header cells), inner markup
(used by event cells), span attributes and the class attribute. -/
structure Cell where
  text : String
  html : String
  colspan : Option String
  rowspan : Option String
  classAttr : Option String
  deriving DecidableEq, Repr

/-- Embedding of `hasClass`: blank-delimited membership in the class
attribute (absent attribute read as the empty string). -/
def hasClass (c : Cell) (cl : String) : Bool :=
  containsSub (" " ++ c.classAttr.getD "" ++ " ") (" " ++ cl ++ " ")

/-- Column→date map as an association list with insert-overwrite
semantics, modelling the Go `map[int]time.Time`. -/
def mapInsert (m : List (Nat × DateS)) (k : Nat) (v : DateS) : List (Nat × DateS) :=
  match m with
  | [] => [(k, v)]
  | (k', v') :: t => if k' = k then (k, v) :: t else (k', v') :: mapInsert t k v

/-- Lookup in the column→date map. -/
def lookupA (m : List (Nat × DateS)) (k : Nat) : Option DateS :=
  match m with
  | [] => none
  | (k', v) :: t => if k' = k then some v else lookupA t k

/-- Assignment of one date to the `cs` columns starting at `col`. -/
def assignRange : List (Nat × DateS) → Nat → Nat → DateS → List (Nat × DateS)
  | m, _, 0, _ => m
  | m, col, cs + 1, d => assignRange (mapInsert m col d) (col + 1) cs d

/-- Second pass of `extractHeaderDates`: walk the header cells, advance
the column index by each colspan, and assign the cell's date (when its
text yields one) to the column range it spans. -/
def headerAssign : List (Nat × DateS) → Nat → List Cell → List (Nat × DateS)
  | m, _, [] => m
  | m, col, c :: rest =>
    let cs := getSpan c.colspan
    let m' :=
      match dateOfCellText c.text with
      | some d => assignRange m col cs d
      | none => m
    headerAssign m' (col + cs) rest

/-- Total logical columns: the sum of the header colspans (first pass of
`extractHeaderDates`). -/
def colSum (cells : List Cell) : Nat :=
  (cells.map (fun c => getSpan c.colspan)).sum

/-- Embedding of `extractHeaderDates`: the column→date map and the total
column count of the header row. -/
def extractHeaderDates (cells : List Cell) : List (Nat × DateS) × Nat :=
  if cells.isEmpty then ([], 0)
  else (headerAssign [] 0 cells, colSum cells)

/-! ## Span Grid Resolver and `parseWeekTable` -/

/-- Cell placement produced by the resolver: the half-open logical
column range and the cell itself. -/
structure Placement where
  startCol : Nat
  endCol : Nat
  cell : Cell
  deriving DecidableEq, Repr

/-- Cursor advance past occupied columns: while the cursor is inside the
grid and the column is reserved by an active rowspan, step right.  The
fuel is instantiated with the column count, which bounds the steps. -/
def skipOcc (occ : List Nat) (total : Nat) : Nat → Nat → Nat
  | 0, cursor => cursor
  | fuel + 1, cursor =>
    if cursor < total && 0 < occ.getD cursor 0 then skipOcc occ total fuel (cursor + 1)
    else cursor

/-- Occupancy marking for a placed rowspan: every column of the range is
set to the given count. -/
def markRange (occ : List Nat) (s e v : Nat) : List Nat :=
  occ.mapIdx (fun i x => if s ≤ i && i < e then v else x)

/-- Resolver loop over one row's cells, threading cursor and occupancy
exactly as the Go body loop does: skip occupied columns, drop the cell
silently when the cursor leaves the grid, clamp the end column, mark
`rowspan - 1` for rowspans above one, continue at the end column. -/
def resolveRowGo : List Nat → Nat → Nat → List Cell → List Placement × List Nat
  | occ, _, _, [] => ([], occ)
  | occ, total, cursor, c :: rest =>
    let cs := getSpan c.colspan
    let rs := getSpan c.rowspan
    let cursor' := skipOcc occ total total cursor
    if total ≤ cursor' then resolveRowGo occ total cursor' rest
    else
      let startCol := cursor'
      let endCol := min (startCol + cs) total
      let occ' := if 1 < rs then markRange occ startCol endCol (rs - 1) else occ
      let (pls, occF) := resolveRowGo occ' total endCol rest
      (⟨startCol, endCol, c⟩ :: pls, occF)

/-- Span Grid Resolver for one row, cursor starting at zero. -/
def resolveRow (occ : List Nat) (total : Nat) (cells : List Cell) :
    List Placement × List Nat :=
  resolveRowGo occ total 0 cells

/-- Row-start occupancy decrement (floored at zero, which natural
subtraction gives directly). -/
def decOcc (occ : List Nat) : List Nat :=
  occ.map (fun n => n - 1)

/-- Event extraction over the placements of one row: event-class cells
whose start column carries a nonzero date yield at most one event each.
The Go loop interleaves this with placement; extraction reads neither
the cursor nor the occupancy, so it is factored into a second pass. -/
def placementEvent (m : List (Nat × DateS)) (cn : String)
    (pl : Placement) : Option ScheduleEvent :=
  if hasClass pl.cell "v" then
    match lookupA m pl.startCol with
    | some d => if isZeroDate d then none else parseEventCell pl.cell.html d cn
    | none => none
  else none

/-- Events of one row's placements, see `placementEvent`. -/
def eventsOfPlacements (m : List (Nat × DateS)) (cn : String)
    (pls : List Placement) : List ScheduleEvent :=
  pls.filterMap (placementEvent m cn)

/-- One body row of `parseWeekTable`: decrement occupancy, resolve the
row, extract its events. -/
def processRow (m : List (Nat × DateS)) (total : Nat) (cn : String)
    (st : List ScheduleEvent × List Nat) (row : List Cell) :
    List ScheduleEvent × List Nat :=
  let occ1 := decOcc st.2
  let (pls, occ2) := resolveRow occ1 total row
  (st.1 ++ eventsOfPlacements m cn pls, occ2)

/-- Embedding of `parseWeekTable`: header mapping, the empty-map and
zero-column guards, then the body rows folded over occupancy state. -/
def parseWeekTable (rows : List (List Cell)) (cn : String) : List ScheduleEvent :=
  match rows with
  | [] => []
  | header :: body =>
    let hd := extractHeaderDates header
    if hd.2 = 0 || hd.1.isEmpty then []
    else (body.foldl (processRow hd.1 hd.2 cn) ([], List.replicate hd.2 0)).1

/-! ## Series keys (`normalizeCourseName`, `extractClassKey`) -/

/-- Dash normalization map of `normalizeCourseName`: minus sign, en
dash, em dash, hyphen (U+2010) and figure dash become an ASCII hyphen
(the replacer's ASCII-hyphen pair is the identity and is omitted). -/
def dashMap (c : Char) : Char :=
  if c = '−' || c = '–' || c = '—' || c = '‐' || c = '‒' then '-' else c

/-- Embedding of `normalizeCourseName`: trim, then dash replacement. -/
def normalizeCourseName (s : String) : String :=
  String.mk ((trimL s.data).map dashMap)

/-- Collapse of every hyphen run to a single hyphen, as the run
replacement of `extractClassKey` produces. -/
def collapseDashF : Nat → List Char → List Char
  | _, [] => []
  | 0, l => l
  | fuel + 1, c :: t =>
    if c = '-' then '-' :: collapseDashF fuel (t.dropWhile (fun x => x = '-'))
    else c :: collapseDashF fuel t

/-- Matching-ready form of a course name: normalized, underscores,
spaces and dots turned to hyphens, hyphen runs collapsed. -/
def keyPrep (s : String) : List Char :=
  let l := (normalizeCourseName s).data.map
    (fun c => if c = '_' || c = ' ' || c = '.' then '-' else c)
  collapseDashF l.length l

/-- Greedy uppercase run and its rest. -/
def takeUpper (l : List Char) : List Char × List Char :=
  (l.takeWhile isUpper, l.dropWhile isUpper)

/-- Greedy digit run and its rest. -/
def takeDigits (l : List Char) : List Char × List Char :=
  (l.takeWhile isDig, l.dropWhile isDig)

/-- One attempted match of the letter-class pattern (program code, a
hyphen, an uppercase letter and two or three digits, word-bounded) at
the current position, returning the two capture groups.  The greedy
two-or-three digit quantifier followed by a word boundary succeeds
exactly when the whole digit run has length two or three and the
character after it is not a word character. -/
def tryLetterAt (l : List Char) : Option (String × String) :=
  match l with
  | 'D' :: 'B' :: t =>
    let u := (takeUpper t).1
    let r1 := (takeUpper t).2
    if u.isEmpty then none
    else
      match r1 with
      | '-' :: c :: r3 =>
        if isUpper c then
          let ds := (takeDigits r3).1
          let r4 := (takeDigits r3).2
          if (ds.length = 2 || ds.length = 3) && bAfter r4 then
            some (String.mk ('D' :: 'B' :: u), String.mk (c :: ds))
          else none
        else none
      | _ => none
  | _ => none

/-- One attempted match of the numeric-cohort pattern (program code, a
hyphen, exactly two word-bounded digits) at the current position. -/
def tryNumAt (l : List Char) : Option (String × String) :=
  match l with
  | 'D' :: 'B' :: t =>
    let u := (takeUpper t).1
    let r1 := (takeUpper t).2
    if u.isEmpty then none
    else
      match r1 with
      | '-' :: r2 =>
        let ds := (takeDigits r2).1
        let r3 := (takeDigits r2).2
        if ds.length = 2 && bAfter r3 then
          some (String.mk ('D' :: 'B' :: u), String.mk ds)
        else none
      | _ => none
  | _ => none

/-- One attempted match of the bare program-code pattern (word-bounded
`DB` plus an uppercase run) at the current position. -/
def tryBlockAt (l : List Char) : Option String :=
  match l with
  | 'D' :: 'B' :: t =>
    let u := (takeUpper t).1
    let r1 := (takeUpper t).2
    if u.isEmpty then none
    else if bAfter r1 then some (String.mk ('D' :: 'B' :: u))
    else none
  | _ => none

/-- Embedding of `extractClassKey`: the three patterns tried in order on
the prepared name, first match winning, with the fixed fallback key. -/
def extractClassKey (courseName : String) : String :=
  let l := keyPrep courseName
  match scanB tryLetterAt (l.length + 1) none l with
  | some (g1, g2) => g1 ++ "-" ++ g2
  | none =>
    match scanB tryNumAt (l.length + 1) none l with
    | some (g1, g2) => g1 ++ "-" ++ g2
    | none =>
      match scanB tryBlockAt (l.length + 1) none l with
      | some g1 => g1
      | none => "Other"

/-! ## Series Aggregator deduplication (`dedupeEvents`) -/

/-- Days since 1970-01-01 of a civil date (era decomposition with
truncating division, as the usual civil-from-days inverse). -/
def daysFromCivil (y : Int) (m d : Nat) : Int :=
  let y' : Int := if m ≤ 2 then y - 1 else y
  let era : Int := Int.tdiv (if 0 ≤ y' then y' else y' - 399) 400
  let yoe : Int := y' - era * 400
  let mp : Int := Int.tmod ((m : Int) + 9) 12
  let doy : Int := Int.tdiv (153 * mp + 2) 5 + (d : Int) - 1
  let doe : Int := yoe * 365 + Int.tdiv yoe 4 - Int.tdiv yoe 100 + doy
  era * 146097 + doe - 719468

/-- Second count of a timestamp, modelling `Start.Unix()` up to the
fixed-zone offset (the offset is constant at the whole-minute wall
times the program builds, apart from DST transition instants, which no
statement below involves). -/
def unixLike (t : GoDateTime) : Int :=
  86400 * daysFromCivil t.year t.month t.day + 3600 * t.hour + 60 * t.minute

/-- Embedding of the deduplication key: second counts and the three text
fields joined with pipe separators. -/
def eventKey (e : ScheduleEvent) : String :=
  toString (unixLike e.start) ++ "|" ++ toString (unixLike e.stop) ++ "|" ++
  e.summary ++ "|" ++ e.location ++ "|" ++ e.description

/-- Loop of `dedupeEvents` with the seen-key set as a list. -/
def dedupeGo (seen : List String) : List ScheduleEvent → List ScheduleEvent
  | [] => []
  | e :: es =>
    if eventKey e ∈ seen then dedupeGo seen es
    else e :: dedupeGo (eventKey e :: seen) es

/-- Embedding of `dedupeEvents`. -/
def dedupeEvents (l : List ScheduleEvent) : List ScheduleEvent :=
  dedupeGo [] l

/-- Specification-side deduplication: keep the head and drop every later
event with the same key, recursively. -/
def dedupeSpecKey : List ScheduleEvent → List ScheduleEvent
  | [] => []
  | e :: es => e :: dedupeSpecKey (es.filter (fun x => eventKey x ≠ eventKey e))
termination_by l => l.length
decreasing_by
  simp only [List.length_cons]
  exact Nat.lt_succ_of_le (List.length_filter_le _ _)

/-- Field-wise identity of two events as the deduplication sentence of
the specification states it: start, end, summary, location and
description all equal. -/
def sameFieldsB (a b : ScheduleEvent) : Bool :=
  a.start = b.start && a.stop = b.stop && a.summary = b.summary &&
  a.location = b.location && a.description = b.description

/-! ## Specification-side renderings and concrete inputs -/

/-- Two-digit decimal rendering of a value below one hundred. -/
def render2 (n : Nat) : List Char :=
  [dig (n / 10), dig (n % 10)]

/-- Characters of a clock string of the claimed `H:MM` or `HH:MM` shape:
the hour with or without a leading zero, a colon, the two-digit
minute. -/
def renderClockL (pad : Bool) (h m : Nat) : List Char :=
  (if pad || 10 ≤ h then render2 h else [dig h]) ++ ':' :: render2 m

/-- Clock string of the claimed shape. -/
def clockStr (pad : Bool) (h m : Nat) : String :=
  String.mk (renderClockL pad h m)

/-- Time-range string of the claimed `H:MM-H:MM` shape. -/
def renderRange (pad1 : Bool) (h1 m1 : Nat) (pad2 : Bool) (h2 m2 : Nat) : String :=
  String.mk (renderClockL pad1 h1 m1 ++ '-' :: renderClockL pad2 h2 m2)

/-- Line list whose members are nonempty, trimmed and free of angle
brackets, ampersands, square brackets and line breaks — the shape on
which re-normalization is provably the identity. -/
def normalLine (l : String) : Bool :=
  !l.data.isEmpty && trimL l.data = l.data && !l.data.contains '<' &&
  !l.data.contains '&' && !l.data.contains '[' && !l.data.contains '\n'

/-- Header cell of specification Example 1: weekday text and colspan 2. -/
def hdrCellMo : Cell :=
  { text := "Mo, 08.12.2025", html := "", colspan := some "2", rowspan := none,
    classAttr := none }

/-- Header cell with unparseable date text (no weekday token). -/
def hdrCellGarbage : Cell :=
  { text := "Tag ???", html := "", colspan := some "2", rowspan := none,
    classAttr := none }

/-- Structural body cell without spans or classes. -/
def cellPlain : Cell :=
  { text := "", html := "", colspan := none, rowspan := none, classAttr := none }

/-- Event-class body cell with rowspan 2, as in specification
Example 2. -/
def cellRsV : Cell :=
  { text := "", html := "10:00-11:00", colspan := none, rowspan := some "2",
    classAttr := some "v" }

/-- First body row: three plain cells, then the rowspan-2 event cell at
logical column 3. -/
def rowFirst : List Cell :=
  [cellPlain, cellPlain, cellPlain, cellRsV]

/-- Following body row: five plain cells, whose fourth would rest at
column 3. -/
def rowSecond : List Cell :=
  [cellPlain, cellPlain, cellPlain, cellPlain, cellPlain]

/-- Resolved column date used by the extractor examples. -/
def dateD0 : DateS :=
  ⟨2025, 12, 8⟩

/-- Timestamp shared by the deduplication counterexample events. -/
def tsC3 : GoDateTime :=
  ⟨2025, 12, 8, 9, 0⟩

/-- Deduplication counterexample, first event: summary `a`, location
`b|c`, description `d`. -/
def evPipe1 : ScheduleEvent :=
  { courseName := "", summary := "a", location := "b|c", description := "d",
    start := tsC3, stop := tsC3 }

/-- Deduplication counterexample, second event: summary `a|b`, location
`c`, description `d` — different fields, identical key. -/
def evPipe2 : ScheduleEvent :=
  { courseName := "", summary := "a|b", location := "c", description := "d",
    start := tsC3, stop := tsC3 }

/-- Event produced by the extractor on the witness lines
`["09:00-10:30", "Vorlesung"]`. -/
def evVorlesung : ScheduleEvent :=
  { courseName := "C", summary := "Vorlesung", location := "",
    description := "Course: C\nType: Vorlesung",
    start := ⟨2025, 12, 8, 9, 0⟩, stop := ⟨2025, 12, 8, 10, 30⟩ }

/-! ## Shared lemmas -/

/-- Rebuilding a string from its characters is the identity. -/
theorem mk_data (s : String) : String.mk s.data = s := by
  cases s
  rfl

/-- Digit characters satisfy the digit class. -/
theorem isDig_dig (n : Nat) (h : n < 10) : isDig (dig n) = true := by
  unfold dig isDig
  interval_cases n <;> decide

/-- Digit characters decode to their value. -/
theorem digVal_dig (n : Nat) (h : n < 10) : digVal (dig n) = n := by
  unfold dig digVal
  interval_cases n <;> decide

/-- C10: for every colspan or rowspan attribute value — absent,
non-numeric, zero or negative — the span used by the grid resolver is 1,
and the resolver never sees a span below 1; a well-formed positive value
is passed through. -/
theorem C10_span_floor :
    (∀ a : Option String, 1 ≤ getSpan a) ∧
    getSpan none = 1 ∧ getSpan (some "x") = 1 ∧ getSpan (some "") = 1 ∧
    getSpan (some "0") = 1 ∧ getSpan (some "-3") = 1 ∧ getSpan (some " 2 ") = 2 := by
  refine ⟨?_, by decide, by decide, by decide, by decide, by decide, by decide⟩
  intro a
  unfold getSpan
  cases a with
  | none => simp
  | some v =>
    cases h : goAtoi (trimS v) with
    | none => simp [h]
    | some i =>
      simp only [h]
      split
      · exact Nat.le_refl 1
      · rename_i hlt
        omega

/-- C9: every cell whose second normalized line equals the reserved
marker case-insensitively after trimming yields no event, whatever else
the cell contains. -/
theorem C9_reserved_cell_dropped :
    ∀ (lines : List String) (d : DateS) (cn : String),
      2 ≤ lines.length →
      equalFold (trimS (lines.getD 1 "")) "Reserviert" = true →
      parseEventCellLines lines d cn = none := by
  intro lines d cn hlen hres
  unfold parseEventCellLines
  have hne : lines.isEmpty = false := by
    cases lines with
    | nil => simp at hlen
    | cons a t => simp
  cases htr : extractTimeRange (joinSp lines) with
  | none => simp [hne, htr]
  | some p =>
    obtain ⟨s1, s2⟩ := p
    simp at hres
    simp [hne, htr, hlen, hres]

/-- C9 witness: the reserved example cell of the specification yields no
event. -/
theorem C9_witness :
    parseEventCellLines ["09:00-10:30", "Reserviert"] dateD0 "X" = none :=
  C9_reserved_cell_dropped ["09:00-10:30", "Reserviert"] dateD0 "X"
    (by decide) (by decide)

/-- C2: code evaluation at the failing input.  After the first body row
places the rowspan-2 event cell at column 3 (occupancy 1 there), the
next row first decrements every counter, so column 3 reads 0 and is NOT
skipped: the following row's cells start at columns 0,1,2,3,4, the
fourth resting exactly on column 3 the claim requires to be skipped. -/
theorem C2_following_row_lands_on_column3 :
    hasClass cellRsV "v" = true ∧
    getSpan cellRsV.rowspan = 2 ∧
    (resolveRow (decOcc (List.replicate 5 0)) 5 rowFirst).1.map Placement.startCol
      = [0, 1, 2, 3] ∧
    (resolveRow (decOcc (List.replicate 5 0)) 5 rowFirst).2 = [0, 0, 0, 1, 0] ∧
    decOcc (resolveRow (decOcc (List.replicate 5 0)) 5 rowFirst).2
      = [0, 0, 0, 0, 0] ∧
    (resolveRow (decOcc (resolveRow (decOcc (List.replicate 5 0)) 5 rowFirst).2)
        5 rowSecond).1.map Placement.startCol = [0, 1, 2, 3, 4] := by
  refine ⟨by decide, by decide, by decide, by decide, by decide, by decide⟩

/-- C1: code evaluation at the Example 1 input.  The day-date token of
the header text is found, but `time.Parse` with the layout constant
`27.01.2006` reads it as day, literal `7.`, month, dot, year, so the
parse of `08.12.2025` fails and neither of the two spanned columns
receives a date (the claim requires both to map to 2025-12-08). -/
theorem C1_header_date_never_mapped :
    findDayDate (trimS hdrCellMo.text) = some "08.12.2025" ∧
    goParseDate "08.12.2025" = none ∧
    extractHeaderDates [hdrCellMo] = ([], 2) ∧
    (∀ a b c d e f g h : Fin 10,
      goParseDate (String.mk
        [dig a, dig b, '.', dig c, dig d, '.', dig e, dig f, dig g, dig h])
        = none) := by
  refine ⟨by decide, by decide, by decide, ?_⟩
  intro a b c d e f g h
  have hda : isDig (dig a) = true := isDig_dig a.val a.isLt
  have hdb : isDig (dig b) = true := isDig_dig b.val b.isLt
  have h7 : (('7' : Char) == '.') = false := by decide
  unfold goParseDate getnum2
  simp [hda, hdb, List.isPrefixOf, h7]

/-- C3 counterexample: two events with different summary and location
fields but the same pipe-joined key; deduplication drops the second even
though the five fields do not all match, so field equality is not the
identity relation the code uses. -/
theorem C3_counterexample :
    dedupeEvents [evPipe1, evPipe2] = [evPipe1] ∧
    sameFieldsB evPipe1 evPipe2 = false := by
  constructor
  · decide
  · decide

/-- Loop characterization: the seen-set fold of `dedupeEvents` keeps
exactly the first occurrence of each key among the events whose key is
not already seen, in input order. -/
theorem dedupeGo_spec (l : List ScheduleEvent) : ∀ seen : List String,
    dedupeGo seen l = dedupeSpecKey (l.filter (fun x => decide (eventKey x ∉ seen))) := by
  induction l with
  | nil => intro seen; simp [dedupeGo, dedupeSpecKey]
  | cons e es ih =>
    intro seen
    by_cases he : eventKey e ∈ seen
    · have h1 : dedupeGo seen (e :: es) = dedupeGo seen es := by
        simp [dedupeGo, he]
      have hf : (e :: es).filter (fun x => decide (eventKey x ∉ seen))
          = es.filter (fun x => decide (eventKey x ∉ seen)) := by
        simp [List.filter, he]
      rw [h1, hf, ih]
    · have h1 : dedupeGo seen (e :: es) = e :: dedupeGo (eventKey e :: seen) es := by
        simp [dedupeGo, he]
      have hf : (e :: es).filter (fun x => decide (eventKey x ∉ seen))
          = e :: es.filter (fun x => decide (eventKey x ∉ seen)) := by
        simp [List.filter, he]
      rw [h1, hf, ih (eventKey e :: seen)]
      rw [dedupeSpecKey]
      have harg : es.filter (fun x => decide (eventKey x ∉ eventKey e :: seen))
          = (es.filter (fun x => decide (eventKey x ∉ seen))).filter
              (fun x => eventKey x ≠ eventKey e) := by
        rw [List.filter_filter]
        apply List.filter_congr
        intro x _
        by_cases hxe : eventKey x = eventKey e
        · simp [hxe, he]
        · by_cases hxs : eventKey x ∈ seen
          · simp [hxe, hxs]
          · simp [hxe, hxs]
      rw [harg]

/-- C3 amended: deduplication treats two events as identical exactly
when their derived keys (second counts of start and end plus summary,
location, description, pipe-joined) coincide; events whose five fields
all match always share a key, the first occurrence of each key is kept,
later occurrences are dropped, and kept events stay in input order. -/
theorem C3_dedupe_by_key :
    (∀ l : List ScheduleEvent, dedupeEvents l = dedupeSpecKey l) ∧
    (∀ a b : ScheduleEvent, sameFieldsB a b = true → eventKey a = eventKey b) := by
  constructor
  · intro l
    unfold dedupeEvents
    rw [dedupeGo_spec]
    congr 1
    have hp : (fun x : ScheduleEvent => decide (eventKey x ∉ ([] : List String)))
        = fun _ => true := by
      funext x
      simp
    rw [hp]
    exact List.filter_true l
  · intro a b hf
    unfold sameFieldsB at hf
    simp only [Bool.and_eq_true, decide_eq_true_eq] at hf
    obtain ⟨⟨⟨⟨h1, h2⟩, h3⟩, h4⟩, h5⟩ := hf
    unfold eventKey
    rw [h1, h2, h3, h4, h5]

/-- C3 witness: the characterization applied to a concrete list, and the
field-to-key direction applied to a concrete pair. -/
theorem C3_witness :
    dedupeEvents [evPipe1] = dedupeSpecKey [evPipe1] ∧
    eventKey evPipe1 = eventKey evPipe1 :=
  ⟨C3_dedupe_by_key.1 [evPipe1], C3_dedupe_by_key.2 evPipe1 evPipe1 (by decide)⟩

/-- Insert-overwrite lookup law of the column→date map. -/
theorem lookupA_mapInsert (k : Nat) (v : DateS) :
    ∀ (m : List (Nat × DateS)) (q : Nat),
      lookupA (mapInsert m k v) q = if k = q then some v else lookupA m q := by
  intro m
  induction m with
  | nil =>
    intro q
    simp only [mapInsert, lookupA]
  | cons p t ih =>
    intro q
    obtain ⟨pk, pv⟩ := p
    by_cases hpk : pk = k
    · subst hpk
      simp only [mapInsert, if_pos rfl, lookupA]
      by_cases hq : pk = q
      · simp [hq]
      · simp [hq]
    · simp only [mapInsert, if_neg hpk, lookupA]
      by_cases hq : pk = q
      · subst hq
        rw [if_pos rfl, if_neg (fun h => hpk h.symm)]
        simp [lookupA]
      · rw [if_neg hq, ih q]
        by_cases hqk : k = q
        · simp [hqk, lookupA, hq]
        · simp [hqk, lookupA, hq]

/-- Range-assignment lookup law: inside the assigned range the date is
found, outside it the map is unchanged. -/
theorem lookupA_assignRange (d : DateS) :
    ∀ (cs : Nat) (m : List (Nat × DateS)) (col q : Nat),
      lookupA (assignRange m col cs d) q
        = if col ≤ q ∧ q < col + cs then some d else lookupA m q := by
  intro cs
  induction cs with
  | zero =>
    intro m col q
    rw [show assignRange m col 0 d = m from rfl, if_neg (by omega)]
  | succ n ih =>
    intro m col q
    rw [show assignRange m col (n + 1) d
        = assignRange (mapInsert m col d) (col + 1) n d from rfl]
    rw [ih]
    by_cases h1 : col + 1 ≤ q ∧ q < col + 1 + n
    · rw [if_pos h1, if_pos (by omega)]
    · rw [if_neg h1, lookupA_mapInsert]
      by_cases h2 : col = q
      · rw [if_pos h2, if_pos (by omega)]
      · rw [if_neg h2, if_neg (by omega)]

/-- Header assignment never touches columns left of the running column
index. -/
theorem lookupA_headerAssign_lt :
    ∀ (cells : List Cell) (m : List (Nat × DateS)) (col q : Nat), q < col →
      lookupA (headerAssign m col cells) q = lookupA m q := by
  intro cells
  induction cells with
  | nil => intro m col q _; rfl
  | cons c rest ih =>
    intro m col q h
    simp only [headerAssign]
    cases hdt : dateOfCellText c.text with
    | none => rw [ih _ _ _ (by omega)]
    | some dd =>
      rw [ih _ _ _ (by omega), lookupA_assignRange, if_neg (by omega)]

/-- A header cell without a usable date token leaves the columns it
spans exactly as they were before the header walk. -/
theorem headerAssign_dead_cell :
    ∀ (pre : List Cell) (c : Cell) (post : List Cell) (m : List (Nat × DateS))
      (col q : Nat),
      dateOfCellText c.text = none →
      col + colSum pre ≤ q →
      q < col + colSum pre + getSpan c.colspan →
      lookupA (headerAssign m col (pre ++ c :: post)) q = lookupA m q := by
  intro pre
  induction pre with
  | nil =>
    intro c post m col q hdt hlo hhi
    simp only [colSum, List.map_nil, List.sum_nil, Nat.add_zero] at hlo hhi
    simp only [List.nil_append, headerAssign, hdt]
    rw [lookupA_headerAssign_lt _ _ _ _ (by omega)]
  | cons p pre' ih =>
    intro c post m col q hdt hlo hhi
    have hcs : colSum (p :: pre') = getSpan p.colspan + colSum pre' := by
      simp [colSum]
    rw [hcs] at hlo hhi
    simp only [List.cons_append, headerAssign]
    cases hdp : dateOfCellText p.text with
    | none => exact ih c post m (col + getSpan p.colspan) q hdt (by omega) (by omega)
    | some dd =>
      have h2 := ih c post (assignRange m col (getSpan p.colspan) dd)
        (col + getSpan p.colspan) q hdt (by omega) (by omega)
      rw [lookupA_assignRange, if_neg (by omega)] at h2
      exact h2

/-- A placement on an unmapped column yields no event. -/
theorem placementEvent_unmapped (m : List (Nat × DateS)) (cn : String)
    (pl : Placement) (h : lookupA m pl.startCol = none) :
    placementEvent m cn pl = none := by
  unfold placementEvent
  rw [h]
  split <;> rfl

/-- C8: a header cell with no recognizable (or unparseable) date token
contributes no column→date entry for any column it spans, and event
extraction ignores every placement whose start column is unmapped —
cells landing there produce no event rather than one with a default
date. -/
theorem C8_unmapped_columns_yield_nothing :
    (∀ (pre : List Cell) (c : Cell) (post : List Cell) (q : Nat),
      dateOfCellText c.text = none →
      colSum pre ≤ q →
      q < colSum pre + getSpan c.colspan →
      lookupA (extractHeaderDates (pre ++ c :: post)).1 q = none) ∧
    (∀ (m : List (Nat × DateS)) (cn : String) (pls : List Placement),
      eventsOfPlacements m cn pls
        = eventsOfPlacements m cn
            (pls.filter (fun pl => (lookupA m pl.startCol).isSome))) := by
  constructor
  · intro pre c post q hdt hlo hhi
    unfold extractHeaderDates
    have hne : (pre ++ c :: post).isEmpty = false := by
      cases pre <;> simp
    rw [hne]
    simp only [Bool.false_eq_true, if_false]
    exact headerAssign_dead_cell pre c post [] 0 q hdt (by omega) (by omega)
  · intro m cn pls
    induction pls with
    | nil => rfl
    | cons pl rest ih =>
      unfold eventsOfPlacements at ih ⊢
      rw [List.filterMap_cons, List.filter_cons]
      by_cases hs : (lookupA m pl.startCol).isSome
      · rw [if_pos (by simp [hs]), List.filterMap_cons]
        cases hf : placementEvent m cn pl <;> simp [hf, ih]
      · have hnone : lookupA m pl.startCol = none := by
          cases h : lookupA m pl.startCol
          · rfl
          · rw [h] at hs; simp at hs
        rw [placementEvent_unmapped m cn pl hnone, if_neg (by simp [hnone])]
        exact ih

/-- C8 witness: the garbage header cell of Example 6 maps neither of its
two columns. -/
theorem C8_witness :
    lookupA (extractHeaderDates [hdrCellGarbage]).1 0 = none :=
  C8_unmapped_columns_yield_nothing.1 [] hdrCellGarbage [] 0
    (by decide) (by decide) (by decide)

/-- C4 amended: every Candidate Event carries the calendar date of the
resolved column on both timestamps, but start before end is not
enforced: the order of start and end is exactly the order of the two
parsed clock values, whatever it is. -/
theorem C4_same_date_order_from_clocks :
    ∀ (lines : List String) (d : DateS) (cn : String) (ev : ScheduleEvent),
      parseEventCellLines lines d cn = some ev →
      (ev.start.year = d.year ∧ ev.start.month = d.month ∧
       ev.start.day = d.day ∧ ev.stop.year = d.year ∧
       ev.stop.month = d.month ∧ ev.stop.day = d.day) ∧
      beforeB ev.start ev.stop
        = (decide (ev.start.hour < ev.stop.hour) ||
           (decide (ev.start.hour = ev.stop.hour) &&
            decide (ev.start.minute < ev.stop.minute))) := by
  intro lines d cn ev h
  unfold parseEventCellLines at h
  split at h
  · cases h
  split at h
  · cases h
  split at h
  · cases h
  split at h
  · cases h
  rename_i h1 m1 hpc1
  split at h
  · cases h
  rename_i h2 m2 hpc2
  injection h with h'
  subst h'
  refine ⟨by simp [buildEvent], ?_⟩
  simp only [buildEvent]
  by_cases hh : h1 = h2
  · subst hh
    simp [beforeB]
  · simp [beforeB, hh]

/-- C4 counterexample: the reversed range `10:00-09:00` still produces
an event, whose start does not precede its end. -/
theorem C4_counterexample_reversed_range :
    (parseEventCellLines ["10:00-09:00"] dateD0 "C").map
      (fun e => beforeB e.start e.stop) = some false := by
  decide

/-- C4 witness: the amended statement applied to a concrete forward
cell. -/
theorem C4_witness :
    evVorlesung.start.day = dateD0.day ∧
    beforeB evVorlesung.start evVorlesung.stop = true := by
  have h := C4_same_date_order_from_clocks ["09:00-10:30", "Vorlesung"]
    dateD0 "C" evVorlesung (by decide)
  refine ⟨h.1.2.2.1, ?_⟩
  rw [h.2]
  decide

/-- Characters of a joined line list are the separator or characters of
some line. -/
theorem mem_joinCh (sep : Char) :
    ∀ (ls : List String) (c : Char), c ∈ joinCh sep ls →
      c = sep ∨ ∃ l ∈ ls, c ∈ l.data := by
  intro ls
  induction ls with
  | nil => intro c hc; cases hc
  | cons l r ih =>
    intro c hc
    cases r with
    | nil =>
      right
      exact ⟨l, by simp, hc⟩
    | cons r0 rs =>
      rw [show joinCh sep (l :: r0 :: rs) = l.data ++ sep :: joinCh sep (r0 :: rs)
        from rfl] at hc
      rcases List.mem_append.mp hc with h | h
      · exact Or.inr ⟨l, by simp, h⟩
      · rcases List.mem_cons.mp h with h | h
        · exact Or.inl h
        · rcases ih c h with h | ⟨l', hl', hc'⟩
          · exact Or.inl h
          · exact Or.inr ⟨l', by simp [hl'], hc'⟩

/-- Replacement is the identity when the pattern head does not occur. -/
theorem replaceAllL_id (c0 : Char) (p' rep : List Char) :
    ∀ (fuel : Nat) (l : List Char), c0 ∉ l →
      replaceAllL (c0 :: p') rep fuel l = l := by
  intro fuel
  induction fuel with
  | zero => intro l _; cases l <;> rfl
  | succ n ih =>
    intro l hl
    cases l with
    | nil => rfl
    | cons c t =>
      have hc : ¬ c0 = c := fun h => hl (h ▸ List.mem_cons_self c t)
      have hpre : (c0 :: p').isPrefixOf (c :: t) = false := by
        simp [List.isPrefixOf, hc]
      rw [show replaceAllL (c0 :: p') rep (n + 1) (c :: t)
          = if (c0 :: p').isPrefixOf (c :: t) then
              rep ++ replaceAllL (c0 :: p') rep n ((c :: t).drop (c0 :: p').length)
            else c :: replaceAllL (c0 :: p') rep n t from rfl]
      rw [hpre]
      simp only [Bool.false_eq_true, if_false]
      rw [ih t (fun h => hl (List.mem_cons_of_mem c h))]

/-- String-level replacement identity. -/
theorem replaceAllS_id_of_head (pat rep s : String) (c0 : Char) (t : List Char)
    (hpat : pat.data = c0 :: t) (h : c0 ∉ s.data) : replaceAllS pat rep s = s := by
  unfold replaceAllS
  rw [hpat, replaceAllL_id c0 t rep.data s.data.length s.data h, mk_data]

/-- Tag removal is the identity without opening angle brackets. -/
theorem removeTagsL_id :
    ∀ (fuel : Nat) (l : List Char), '<' ∉ l → removeTagsL fuel l = l := by
  intro fuel
  induction fuel with
  | zero => intro l _; cases l <;> rfl
  | succ n ih =>
    intro l hl
    cases l with
    | nil => rfl
    | cons c t =>
      have hc : ¬ c = '<' := fun h => hl (h ▸ List.mem_cons_self c t)
      rw [show removeTagsL (n + 1) (c :: t)
          = if c = '<' then
              (match findGT t with
               | some rest => removeTagsL n rest
               | none => c :: t)
            else c :: removeTagsL n t from rfl]
      rw [if_neg hc, ih t (fun h => hl (List.mem_cons_of_mem c h))]

/-- Entity decoding is the identity without ampersands. -/
theorem unescapeL_id :
    ∀ (fuel : Nat) (l : List Char), '&' ∉ l → unescapeL fuel l = l := by
  intro fuel
  induction fuel with
  | zero => intro l _; cases l <;> rfl
  | succ n ih =>
    intro l hl
    cases l with
    | nil => rfl
    | cons c t =>
      have hc : ¬ c = '&' := fun h => hl (h ▸ List.mem_cons_self c t)
      rw [show unescapeL (n + 1) (c :: t)
          = if c = '&' then
              (match decodeEnt t with
               | some (d, rest) => d :: unescapeL n rest
               | none => c :: unescapeL n t)
            else c :: unescapeL n t from rfl]
      rw [if_neg hc, ih t (fun h => hl (List.mem_cons_of_mem c h))]

/-- A break-free character list splits into itself. -/
theorem splitNLL_nonl : ∀ (m : List Char), '\n' ∉ m → splitNLL m = [m] := by
  intro m
  induction m with
  | nil => intro _; rfl
  | cons c t ih =>
    intro hm
    have hc : ¬ c = '\n' := fun h => hm (h ▸ List.mem_cons_self c t)
    rw [show splitNLL (c :: t)
        = if c = '\n' then [] :: splitNLL t
          else
            (match splitNLL t with
             | [] => [[c]]
             | h :: r => (c :: h) :: r) from rfl]
    rw [if_neg hc, ih (fun h => hm (List.mem_cons_of_mem c h))]

/-- Splitting peels one break-free piece before a newline. -/
theorem splitNLL_append :
    ∀ (m rest : List Char), '\n' ∉ m →
      splitNLL (m ++ '\n' :: rest) = m :: splitNLL rest := by
  intro m
  induction m with
  | nil =>
    intro rest _
    rw [show ([] : List Char) ++ '\n' :: rest = '\n' :: rest from rfl]
    rw [show splitNLL ('\n' :: rest)
        = if '\n' = '\n' then [] :: splitNLL rest
          else
            (match splitNLL rest with
             | [] => [['\n']]
             | h :: r => ('\n' :: h) :: r) from rfl]
    rw [if_pos rfl]
  | cons c t ih =>
    intro rest hm
    have hc : ¬ c = '\n' := fun h => hm (h ▸ List.mem_cons_self c t)
    rw [show (c :: t) ++ '\n' :: rest = c :: (t ++ '\n' :: rest) from rfl]
    rw [show splitNLL (c :: (t ++ '\n' :: rest))
        = if c = '\n' then [] :: splitNLL (t ++ '\n' :: rest)
          else
            (match splitNLL (t ++ '\n' :: rest) with
             | [] => [[c]]
             | h :: r => (c :: h) :: r) from rfl]
    rw [if_neg hc, ih rest (fun h => hm (List.mem_cons_of_mem c h))]

/-- Splitting the newline join of break-free lines recovers the lines. -/
theorem split_join :
    ∀ (ls : List String), ls ≠ [] → (∀ l ∈ ls, '\n' ∉ l.data) →
      splitNLL (joinCh '\n' ls) = ls.map String.data := by
  intro ls
  induction ls with
  | nil => intro h _; cases h rfl
  | cons l r ih =>
    intro _ hnl
    cases r with
    | nil =>
      rw [show joinCh '\n' [l] = l.data from rfl]
      rw [splitNLL_nonl l.data (hnl l (by simp))]
      rfl
    | cons r0 rs =>
      rw [show joinCh '\n' (l :: r0 :: rs) = l.data ++ '\n' :: joinCh '\n' (r0 :: rs)
        from rfl]
      rw [splitNLL_append _ _ (hnl l (by simp))]
      rw [ih (by simp) (fun x hx => hnl x (List.mem_cons_of_mem l hx))]
      rfl

/-- A negative containment test gives non-membership. -/
theorem not_mem_of_contains_false {a : Char} :
    ∀ {l : List Char}, l.contains a = false → a ∉ l := by
  intro l
  induction l with
  | nil => intro _ hm; cases hm
  | cons c t ih =>
    intro h hm
    simp only [List.contains_cons, Bool.or_eq_false_iff, beq_eq_false_iff_ne] at h
    rcases List.mem_cons.mp hm with h1 | h1
    · exact h.1 h1
    · exact ih h.2 h1

/-- The footnote pattern cannot match without an opening square
bracket. -/
theorem tryFnAt_none (l : List Char) (hl : '[' ∉ l) : tryFnAt l = none := by
  cases hd : l.dropWhile reSpace with
  | nil => simp [tryFnAt, hd]
  | cons c t =>
    have hc : ¬ c = '[' := by
      intro h
      subst h
      exact hl ((List.dropWhile_sublist reSpace).subset (hd ▸ List.mem_cons_self _ t))
    simp [tryFnAt, hd, hc]

/-- Footnote removal is the identity without opening square brackets. -/
theorem removeFnL_id :
    ∀ (fuel : Nat) (l : List Char), '[' ∉ l → removeFnL fuel l = l := by
  intro fuel
  induction fuel with
  | zero => intro l _; cases l <;> rfl
  | succ n ih =>
    intro l hl
    cases l with
    | nil => rfl
    | cons c t =>
      rw [show removeFnL (n + 1) (c :: t)
          = (match tryFnAt (c :: t) with
             | some rest => removeFnL n rest
             | none => c :: removeFnL n t) from rfl]
      rw [tryFnAt_none (c :: t) hl]
      rw [ih t (fun h => hl (List.mem_cons_of_mem c h))]

/-- Per-line cleanup fixes every normal line. -/
theorem cleanLine_id (l : String) (h : normalLine l = true) : cleanLine l = some l := by
  unfold normalLine at h
  simp only [Bool.and_eq_true, Bool.not_eq_true', decide_eq_true_eq] at h
  obtain ⟨⟨⟨⟨⟨hne, htr⟩, _⟩, _⟩, hbr⟩, _⟩ := h
  rw [show cleanLine l
      = (if (removeFnL (trimL l.data).length (trimL l.data)).isEmpty then none
         else some (String.mk (removeFnL (trimL l.data).length (trimL l.data))))
    from rfl]
  rw [htr, removeFnL_id _ _ (not_mem_of_contains_false hbr), hne]
  simp only [Bool.false_eq_true, if_false]

/-- A function that fixes every member filters to the identity. -/
theorem filterMap_id_of_some {α : Type} (f : α → Option α) :
    ∀ l : List α, (∀ a ∈ l, f a = some a) → l.filterMap f = l := by
  intro l
  induction l with
  | nil => intro _; rfl
  | cons a t ih =>
    intro h
    rw [List.filterMap_cons, h a (by simp)]
    rw [ih (fun x hx => h x (by simp [hx]))]

/-- C5 counterexample: normalizing the cell markup `a[[1]2]b` yields the
line `a[2]b`, but re-normalizing that produced line yields `ab` —
footnote removal exposed a new footnote marker, so the normalizer is not
idempotent. -/
theorem C5_counterexample_footnote :
    splitCellLines "a[[1]2]b" = ["a[2]b"] ∧
    splitCellLines (joinNL ["a[2]b"]) = ["ab"] := by
  constructor
  · decide
  · decide

/-- C5 amended: re-normalization is a no-op on every line list whose
lines are nonempty, trimmed and free of angle brackets, ampersands,
square brackets and line breaks (the shape ordinary schedule cells
produce); in general a produced line can contain a new footnote marker,
entity or tag text, and a second pass then changes it. -/
theorem C5_renormalize_normal_lines :
    ∀ ls : List String, (∀ l ∈ ls, normalLine l = true) →
      splitCellLines (joinNL ls) = ls := by
  intro ls hls
  cases ls with
  | nil => rfl
  | cons l0 rest =>
    have hne : (l0 :: rest) ≠ [] := by simp
    have hmem : ∀ x : Char, x ∈ (joinNL (l0 :: rest)).data →
        x = '\n' ∨ ∃ l ∈ l0 :: rest, x ∈ l.data :=
      fun x hx => mem_joinCh '\n' (l0 :: rest) x hx
    have hcomp : ∀ l ∈ l0 :: rest, l.data.contains '<' = false ∧
        l.data.contains '&' = false ∧ l.data.contains '\n' = false := by
      intro l hl
      have h := hls l hl
      unfold normalLine at h
      simp only [Bool.and_eq_true, Bool.not_eq_true', decide_eq_true_eq] at h
      exact ⟨h.1.1.1.2, h.1.1.2, h.2⟩
    have hlt : '<' ∉ (joinNL (l0 :: rest)).data := by
      intro hx
      rcases hmem '<' hx with h | ⟨l, hl, hcl⟩
      · exact absurd h (by decide)
      · exact not_mem_of_contains_false (hcomp l hl).1 hcl
    have hamp : '&' ∉ (joinNL (l0 :: rest)).data := by
      intro hx
      rcases hmem '&' hx with h | ⟨l, hl, hcl⟩
      · exact absurd h (by decide)
      · exact not_mem_of_contains_false (hcomp l hl).2.1 hcl
    have hnl : ∀ l ∈ l0 :: rest, '\n' ∉ l.data :=
      fun l hl => not_mem_of_contains_false (hcomp l hl).2.2
    have e1 : replaceAllS "<br/>" "\n" (joinNL (l0 :: rest)) = joinNL (l0 :: rest) :=
      replaceAllS_id_of_head _ _ _ '<' _ rfl hlt
    have e2 : replaceAllS "<br />" "\n" (joinNL (l0 :: rest)) = joinNL (l0 :: rest) :=
      replaceAllS_id_of_head _ _ _ '<' _ rfl hlt
    have e3 : replaceAllS "<br>" "\n" (joinNL (l0 :: rest)) = joinNL (l0 :: rest) :=
      replaceAllS_id_of_head _ _ _ '<' _ rfl hlt
    have e4 : String.mk (removeTagsL (joinNL (l0 :: rest)).data.length
        (joinNL (l0 :: rest)).data) = joinNL (l0 :: rest) := by
      rw [removeTagsL_id _ _ hlt, mk_data]
    have e5 : unescapeStr (joinNL (l0 :: rest)) = joinNL (l0 :: rest) := by
      unfold unescapeStr
      rw [unescapeL_id _ _ hamp, mk_data]
    simp only [splitCellLines]
    rw [e1, e2, e3, e4, e5]
    rw [show (joinNL (l0 :: rest)).data = joinCh '\n' (l0 :: rest) from rfl]
    rw [split_join _ hne hnl, List.filterMap_map]
    apply filterMap_id_of_some
    intro a ha
    show cleanLine (String.mk a.data) = some a
    rw [mk_data]
    exact cleanLine_id a (hls a ha)

/-- C5 witness: the amended statement applied to the Example 4 line
list. -/
theorem C5_witness :
    splitCellLines (joinNL ["09:00-10:30", "Vorlesung"])
      = ["09:00-10:30", "Vorlesung"] :=
  C5_renormalize_normal_lines ["09:00-10:30", "Vorlesung"] (by decide)

/-- Digit characters are not regexp white space. -/
theorem reSpace_of_isDig {c : Char} (h : isDig c = true) : reSpace c = false := by
  unfold reSpace
  have h1 : (c = ' ') = False := eq_false (fun he => absurd (he ▸ h) (by decide))
  have h2 : (c = '\t') = False := eq_false (fun he => absurd (he ▸ h) (by decide))
  have h3 : (c = '\n') = False := eq_false (fun he => absurd (he ▸ h) (by decide))
  have h4 : (c = '\u000c') = False := eq_false (fun he => absurd (he ▸ h) (by decide))
  have h5 : (c = '\r') = False := eq_false (fun he => absurd (he ▸ h) (by decide))
  simp [h1, h2, h3, h4, h5]

/-- Digit characters are not trimmed white space. -/
theorem goSpace_of_isDig {c : Char} (h : isDig c = true) : goSpace c = false := by
  unfold isDig at h
  simp only [Bool.and_eq_true, decide_eq_true_eq] at h
  unfold goSpace
  rw [Bool.eq_false_iff]
  intro hg
  simp only [Bool.or_eq_true, Bool.and_eq_true, decide_eq_true_eq] at hg
  omega

/-- Two-digit clock-token match on explicit digits. -/
theorem matchClockAt_two (x y z w : Char) (rest : List Char)
    (hx : isDig x = true) (hy : isDig y = true) (hz : isDig z = true)
    (hw : isDig w = true) :
    matchClockAt (x :: y :: ':' :: z :: w :: rest) = some ([x, y, ':', z, w], rest) := by
  simp [matchClockAt, hx, hy, hz, hw]

/-- One-digit clock-token match on explicit digits. -/
theorem matchClockAt_one (x z w : Char) (rest : List Char)
    (hx : isDig x = true) (hz : isDig z = true) (hw : isDig w = true) :
    matchClockAt (x :: ':' :: z :: w :: rest) = some ([x, ':', z, w], rest) := by
  cases rest with
  | nil => simp [matchClockAt, matchClock1, hx, hz, hw]
  | cons r rs =>
    have hcol : isDig ':' = false := by decide
    simp [matchClockAt, matchClock1, hx, hz, hw, hcol]

/-- Clock-token match at the head of a rendered clock string. -/
theorem matchClockAt_render (pad : Bool) (h m : Nat) (rest : List Char)
    (hh : h ≤ 99) (hm : m ≤ 99) :
    matchClockAt (renderClockL pad h m ++ rest) = some (renderClockL pad h m, rest) := by
  unfold renderClockL render2
  by_cases hp : (pad || decide (10 ≤ h)) = true
  · rw [if_pos hp]
    simp only [List.cons_append, List.nil_append]
    exact matchClockAt_two _ _ _ _ rest (isDig_dig (h / 10) (by omega))
      (isDig_dig (h % 10) (by omega)) (isDig_dig (m / 10) (by omega))
      (isDig_dig (m % 10) (by omega))
  · rw [if_neg hp]
    have hh10 : h < 10 := by
      simp only [Bool.or_eq_true, decide_eq_true_eq, not_or] at hp
      omega
    simp only [List.cons_append, List.nil_append]
    exact matchClockAt_one _ _ _ rest (isDig_dig h hh10)
      (isDig_dig (m / 10) (by omega)) (isDig_dig (m % 10) (by omega))

/-- A predicate false on all members leaves dropWhile inert. -/
theorem dropWhile_false' {p : Char → Bool} :
    ∀ {l : List Char}, (∀ c ∈ l, p c = false) → l.dropWhile p = l := by
  intro l h
  cases l with
  | nil => rfl
  | cons c t =>
    rw [List.dropWhile_cons]
    simp [h c (List.mem_cons_self c t)]

/-- Trimming is inert without trimmed white space. -/
theorem trimL_id_of (l : List Char) (h : ∀ c ∈ l, goSpace c = false) : trimL l = l := by
  unfold trimL
  rw [dropWhile_false' h]
  rw [dropWhile_false' (fun c hc => h c (List.mem_reverse.mp hc))]
  exact List.reverse_reverse l

/-- Characters of a rendered clock string are digits or the colon. -/
theorem mem_renderClockL {pad : Bool} {h m : Nat} {c : Char}
    (hh : h ≤ 99) (hm : m ≤ 99) (hc : c ∈ renderClockL pad h m) :
    isDig c = true ∨ c = ':' := by
  unfold renderClockL render2 at hc
  by_cases hp : (pad || decide (10 ≤ h)) = true
  · rw [if_pos hp] at hc
    simp only [List.cons_append, List.nil_append, List.mem_cons,
      List.not_mem_nil, or_false] at hc
    rcases hc with rfl | rfl | rfl | rfl | rfl
    · exact Or.inl (isDig_dig (h / 10) (by omega))
    · exact Or.inl (isDig_dig (h % 10) (by omega))
    · exact Or.inr rfl
    · exact Or.inl (isDig_dig (m / 10) (by omega))
    · exact Or.inl (isDig_dig (m % 10) (by omega))
  · rw [if_neg hp] at hc
    have hh10 : h < 10 := by
      simp only [Bool.or_eq_true, decide_eq_true_eq, not_or] at hp
      omega
    simp only [List.cons_append, List.nil_append, List.mem_cons,
      List.not_mem_nil, or_false] at hc
    rcases hc with rfl | rfl | rfl | rfl
    · exact Or.inl (isDig_dig h hh10)
    · exact Or.inr rfl
    · exact Or.inl (isDig_dig (m / 10) (by omega))
    · exact Or.inl (isDig_dig (m % 10) (by omega))

/-- The rendered clock string parses back to its clock values exactly
when they are in 24-hour range, and to nothing otherwise. -/
theorem parseClock_render (pad : Bool) (h m : Nat) (hh : h ≤ 99) (hm : m ≤ 99) :
    parseClock (clockStr pad h m)
      = if h ≤ 23 && m ≤ 59 then some (h, m) else none := by
  unfold parseClock clockStr
  have htr : trimL (String.mk (renderClockL pad h m)).data = renderClockL pad h m := by
    rw [show (String.mk (renderClockL pad h m)).data = renderClockL pad h m from rfl]
    refine trimL_id_of _ (fun c hc => ?_)
    rcases mem_renderClockL hh hm hc with hd | rfl
    · exact goSpace_of_isDig hd
    · decide
  rw [htr]
  have e1 : 10 * (h / 10) + h % 10 = h := by omega
  have e2 : 10 * (m / 10) + m % 10 = m := by omega
  unfold renderClockL render2
  by_cases hp : (pad || decide (10 ≤ h)) = true
  · rw [if_pos hp]
    simp only [List.cons_append, List.nil_append]
    simp only [isDig_dig _ (show h / 10 < 10 by omega),
      isDig_dig _ (show h % 10 < 10 by omega),
      isDig_dig _ (show m / 10 < 10 by omega),
      isDig_dig _ (show m % 10 < 10 by omega),
      digVal_dig _ (show h / 10 < 10 by omega),
      digVal_dig _ (show h % 10 < 10 by omega),
      digVal_dig _ (show m / 10 < 10 by omega),
      digVal_dig _ (show m % 10 < 10 by omega)]
    simp only [e1, e2]
    simp [clockCheck]
  · rw [if_neg hp]
    have hh10 : h < 10 := by
      simp only [Bool.or_eq_true, decide_eq_true_eq, not_or] at hp
      omega
    simp only [List.cons_append, List.nil_append]
    simp only [isDig_dig _ hh10,
      isDig_dig _ (show m / 10 < 10 by omega),
      isDig_dig _ (show m % 10 < 10 by omega),
      digVal_dig _ hh10,
      digVal_dig _ (show m / 10 < 10 by omega),
      digVal_dig _ (show m % 10 < 10 by omega)]
    simp only [e2]
    simp [clockCheck]

/-- Scanning returns a match found at the current position. -/
theorem rangeScan_head (fuel : Nat) (l : List Char) (r : String × String)
    (h : tryRangeAt l = some r) : rangeScan (fuel + 1) l = some r := by
  simp only [rangeScan, h]

/-- The range pattern matches a rendered range at its head and captures
the two clock strings. -/
theorem tryRangeAt_render (pad1 : Bool) (h1 m1 : Nat) (pad2 : Bool) (h2 m2 : Nat)
    (hh1 : h1 ≤ 99) (hm1 : m1 ≤ 99) (hh2 : h2 ≤ 99) (hm2 : m2 ≤ 99) :
    tryRangeAt (renderClockL pad1 h1 m1 ++ '-' :: renderClockL pad2 h2 m2)
      = some (clockStr pad1 h1 m1, clockStr pad2 h2 m2) := by
  have hdw : ('-' :: renderClockL pad2 h2 m2).dropWhile reSpace
      = '-' :: renderClockL pad2 h2 m2 := by
    rw [List.dropWhile_cons, show reSpace '-' = false from by decide]
    simp
  have hdw2 : (renderClockL pad2 h2 m2).dropWhile reSpace
      = renderClockL pad2 h2 m2 := by
    refine dropWhile_false' (fun c hc => ?_)
    rcases mem_renderClockL hh2 hm2 hc with hd | rfl
    · exact reSpace_of_isDig hd
    · decide
  have hmb := matchClockAt_render pad2 h2 m2 [] hh2 hm2
  rw [List.append_nil] at hmb
  unfold tryRangeAt
  rw [matchClockAt_render pad1 h1 m1 ('-' :: renderClockL pad2 h2 m2) hh1 hm1]
  simp only [hdw, hdw2, hmb]
  rfl

/-- C6: every valid `H:MM-H:MM` (or zero-padded `HH:MM`) range string is
found and both clock values are reproduced exactly; a two-digit half
with hour at least 24 or minute at least 60 parses to nothing; and a
cell whose extracted range has an unparseable half yields no event — the
values are never wrapped or clamped. -/
theorem C6_time_range_exact_or_dropped :
    (∀ (pad1 : Bool) (h1 m1 : Nat) (pad2 : Bool) (h2 m2 : Nat),
      h1 ≤ 23 → m1 ≤ 59 → h2 ≤ 23 → m2 ≤ 59 →
      extractTimeRange (renderRange pad1 h1 m1 pad2 h2 m2)
        = some (clockStr pad1 h1 m1, clockStr pad2 h2 m2) ∧
      parseClock (clockStr pad1 h1 m1) = some (h1, m1) ∧
      parseClock (clockStr pad2 h2 m2) = some (h2, m2)) ∧
    (∀ (pad : Bool) (h m : Nat), h ≤ 99 → m ≤ 99 → 24 ≤ h ∨ 60 ≤ m →
      parseClock (clockStr pad h m) = none) ∧
    (∀ (lines : List String) (d : DateS) (cn : String) (a b : String),
      extractTimeRange (joinSp lines) = some (a, b) →
      parseClock a = none ∨ parseClock b = none →
      parseEventCellLines lines d cn = none) := by
  refine ⟨?_, ?_, ?_⟩
  · intro pad1 h1 m1 pad2 h2 m2 hh1 hm1 hh2 hm2
    refine ⟨?_, ?_, ?_⟩
    · unfold extractTimeRange
      exact rangeScan_head _ _ _
        (tryRangeAt_render pad1 h1 m1 pad2 h2 m2 (by omega) (by omega) (by omega) (by omega))
    · rw [parseClock_render pad1 h1 m1 (by omega) (by omega)]
      simp [hh1, hm1]
    · rw [parseClock_render pad2 h2 m2 (by omega) (by omega)]
      simp [hh2, hm2]
  · intro pad h m hh hm hv
    rw [parseClock_render pad h m hh hm]
    rcases hv with hv | hv
    · rw [if_neg (by simp; omega)]
    · rw [if_neg (by simp; omega)]
  · intro lines d cn a b htr hbad
    unfold parseEventCellLines
    by_cases hemp : lines.isEmpty = true
    · rw [if_pos hemp]
    · rw [if_neg hemp]
      simp only [htr]
      by_cases hres : (decide (2 ≤ lines.length)
          && equalFold (trimS (lines.getD 1 "")) "Reserviert") = true
      · rw [if_pos hres]
      · rw [if_neg hres]
        rcases hbad with hba | hbb
        · simp only [hba]
        · cases hpa : parseClock a with
          | none => simp [hpa]
          | some p =>
            obtain ⟨x, y⟩ := p
            simp [hpa, hbb]

/-- C6 witness: the statement applied to the concrete range 9:00-10:30,
to the out-of-range clock 25:00, and to the cell 25:00-26:00. -/
theorem C6_witness :
    extractTimeRange (renderRange false 9 0 false 10 30)
      = some (clockStr false 9 0, clockStr false 10 30) ∧
    parseClock (clockStr false 25 0) = none ∧
    parseEventCellLines ["25:00-26:00"] dateD0 "C" = none :=
  ⟨(C6_time_range_exact_or_dropped.1 false 9 0 false 10 30
      (by decide) (by decide) (by decide) (by decide)).1,
   C6_time_range_exact_or_dropped.2.1 false 25 0 (by decide) (by decide)
      (Or.inl (by decide)),
   C6_time_range_exact_or_dropped.2.2 ["25:00-26:00"] dateD0 "C" "25:00" "26:00"
      (by decide) (Or.inl (by decide))⟩

/-- C7: series-key derivation tries the letter-class pattern, then the
numeric-cohort pattern, then the bare program code, first match winning,
with the fixed fallback key; in particular both Example 5 names resolve
to the key `DBWINFO-A04`. -/
theorem C7_class_key_precedence :
    extractClassKey "DBWINFO-A04 - 3. Blockphase" = "DBWINFO-A04" ∧
    extractClassKey "DBWINFO-A04-2 - 5. Blockphase" = "DBWINFO-A04" ∧
    (∀ s g1 g2 : String,
      scanB tryLetterAt ((keyPrep s).length + 1) none (keyPrep s) = some (g1, g2) →
      extractClassKey s = g1 ++ "-" ++ g2) ∧
    (∀ s g1 g2 : String,
      scanB tryLetterAt ((keyPrep s).length + 1) none (keyPrep s) = none →
      scanB tryNumAt ((keyPrep s).length + 1) none (keyPrep s) = some (g1, g2) →
      extractClassKey s = g1 ++ "-" ++ g2) ∧
    (∀ s g1 : String,
      scanB tryLetterAt ((keyPrep s).length + 1) none (keyPrep s) = none →
      scanB tryNumAt ((keyPrep s).length + 1) none (keyPrep s) = none →
      scanB tryBlockAt ((keyPrep s).length + 1) none (keyPrep s) = some g1 →
      extractClassKey s = g1) ∧
    (∀ s : String,
      scanB tryLetterAt ((keyPrep s).length + 1) none (keyPrep s) = none →
      scanB tryNumAt ((keyPrep s).length + 1) none (keyPrep s) = none →
      scanB tryBlockAt ((keyPrep s).length + 1) none (keyPrep s) = none →
      extractClassKey s = "Other") := by
  refine ⟨by decide, by decide, ?_, ?_, ?_, ?_⟩
  · intro s g1 g2 h1
    unfold extractClassKey
    simp only [h1]
  · intro s g1 g2 h1 h2
    unfold extractClassKey
    simp only [h1, h2]
  · intro s g1 h1 h2 h3
    unfold extractClassKey
    simp only [h1, h2, h3]
  · intro s h1 h2 h3
    unfold extractClassKey
    simp only [h1, h2, h3]

/-- C7 witness: the fallback conjunct applied to a name matching none of
the three patterns. -/
theorem C7_witness : extractClassKey "Sonstiges 2025" = "Other" :=
  C7_class_key_precedence.2.2.2.2.2 "Sonstiges 2025" (by decide) (by decide) (by decide)
